import Mathlib

/-!
Verification of the Solidity ABI call-data `Builder` (src/src/builder.rs).

The builder accumulates typed parameters, optionally a function name, and
produces the ABI call-data byte buffer: an optional 4-byte selector, a head
section of one 32-byte slot per parameter, and a tail section of concatenated
dynamic payloads.

Bytes are modelled as `Nat` (each value < 256 in practice), byte buffers as
`List Nat`.  Rust operations that can panic (slice range checks,
`copy_from_slice` length mismatches, the explicit `panic!` in `signature`)
are modelled by `Option`-valued functions returning `none` at exactly the
panic points.

The type model (`crate::solidity`: `ConcreteSolidityType`, `Address`,
`Function`, `IntoType`) is not part of the translated source file; it is
modelled from the spec where needed.  The Keccak-256 hash comes from the
external `sha3` crate; it is modelled as an abstract hash function
`H : List Nat → List Nat`, with the fact that its digests are 32 bytes long
(256 bits) carried as a hypothesis where it matters.
-/

/-- Modelled from the spec: the Type Model represents each parameter as a
tagged value carrying its canonical ABI type name, its static/dynamic
classification, the exact bytes of its encoding, and (for array parameters
produced by the array addition operations) a dimension count.  This stands in
for `crate::solidity::ConcreteSolidityType`, which is outside the translated
source file. -/
structure Param where
  type_name : String
  is_dynamic : Bool
  encoded_bytes : List Nat
  dims : Option Nat
deriving DecidableEq

/-- Modelled from the spec: `required_byte_len` is the exact byte length the
parameter's encoding occupies — its head-slot width for a static parameter,
its tail payload length for a dynamic one. -/
def Param.required_byte_len (p : Param) : Nat := p.encoded_bytes.length

/-- Modelled from the spec: `to_bytes` yields the dynamic flag together with
the parameter's own encoding. -/
def Param.to_bytes (p : Param) : Bool × List Nat := (p.is_dynamic, p.encoded_bytes)

/-- Modelled from the spec: a validated 20-byte address value
(`crate::solidity::Address`); construction/validation is out of scope. -/
structure Address where
  bytes20 : List Nat
deriving DecidableEq

/-- Modelled from the spec: a validated function-reference value
(`crate::solidity::Function`). -/
structure SolFunction where
  bytes24 : List Nat
deriving DecidableEq

/-- Modelled from the spec: the address parameter pushed by
`Builder::add_address` — canonical name "address", static, encoded as one
32-byte word (12 zero bytes then the 20 address bytes). -/
def addressParam (a : Address) : Param :=
  ⟨"address", false, List.replicate 12 0 ++ a.bytes20, none⟩

/-- Modelled from the spec: the function-reference parameter pushed by
`Builder::add_function` — canonical name "function", static, one 32-byte
word (the 24 reference bytes then 8 zero bytes). -/
def functionParam (f : SolFunction) : Param :=
  ⟨"function", false, f.bytes24 ++ List.replicate 8 0, none⟩

/-- Big-endian byte encoding of `n` into `w` bytes (most significant first). -/
def beBytes (w n : Nat) : List Nat :=
  (List.range w).map (fun i => n / 256 ^ (w - 1 - i) % 256)

/-- UTF-8 encoding of one Unicode code point, as the Rust standard library
produces for the bytes of a `String`. -/
def utf8Bytes (c : Nat) : List Nat :=
  if c < 0x80 then [c]
  else if c < 0x800 then [0xC0 + c / 64, 0x80 + c % 64]
  else if c < 0x10000 then [0xE0 + c / 4096, 0x80 + c / 64 % 64, 0x80 + c % 64]
  else [0xF0 + c / 262144, 0x80 + c / 4096 % 64, 0x80 + c / 64 % 64, 0x80 + c % 64]

/-- UTF-8 bytes of a string, as hashed by `hasher.input(&function)`. -/
def strBytes (s : String) : List Nat :=
  (s.data.map (fun ch => utf8Bytes ch.toNat)).flatten

/-- Overwrite the bytes of `buf` starting at `pos` with `bytes`; models
`buf[pos..pos + bytes.len()].copy_from_slice(&bytes)` (meaningful when the
range lies inside `buf`, which each caller checks). -/
def writeAt (buf : List Nat) (pos : Nat) (bytes : List Nat) : List Nat :=
  buf.take pos ++ (bytes ++ buf.drop (pos + bytes.length))

/-- Read `len` bytes of `buf` starting at `pos` (a Rust subslice
`buf[pos..pos+len]`). -/
def subslice (buf : List Nat) (pos len : Nat) : List Nat :=
  (buf.drop pos).take len

/-- The builder state of `Builder` in src/src/builder.rs: an optional function
name and the parameters added so far, in insertion order. -/
structure Builder where
  name : Option String
  params : List Param
deriving DecidableEq

/-- Translation of `Builder::new`. -/
def Builder.new : Builder := ⟨none, []⟩

/-- Translation of `Builder::name` (named `setName` here because `name` is the
field): sets the function name. -/
def Builder.setName (b : Builder) (n : String) : Builder := { b with name := some n }

/-- Translation of `Builder::add`: `value.into_type()` is the already-wrapped
parameter (the `IntoType` conversion belongs to the out-of-scope type model),
which is pushed onto the parameter list. -/
def Builder.add (b : Builder) (p : Param) : Builder :=
  { b with params := b.params ++ [p] }

/-- Translation of `Builder::add_address`.  The fallible `value.try_into()`
conversion lives in the out-of-scope type model, so its result is taken as an
argument: on error the error propagates (the `?` operator) and no parameter
is pushed; on success the address parameter is pushed. -/
def Builder.add_address {E : Type} (b : Builder) (conv : Except E Address) :
    Except E Builder :=
  match conv with
  | Except.error e => Except.error e
  | Except.ok address =>
      Except.ok { b with params := b.params ++ [addressParam address] }

/-- Translation of `Builder::add_function`, exactly parallel to
`add_address`. -/
def Builder.add_function {E : Type} (b : Builder) (conv : Except E SolFunction) :
    Except E Builder :=
  match conv with
  | Except.error e => Except.error e
  | Except.ok function =>
      Except.ok { b with params := b.params ++ [functionParam function] }

/-- Modelled from the spec: the scalar parameter pushed by the
macro-generated `Builder::add_u8` — canonical name "uint8", static, encoded
as one 32-byte big-endian word. -/
def u8Param (v : Nat) : Param := ⟨"uint8", false, beBytes 32 (v % 256), none⟩

/-- Modelled from the spec: the scalar parameter pushed by the
macro-generated `Builder::add_u256` — canonical name "uint256", static, the
caller's 32-byte block itself. -/
def u256Param (w : List Nat) : Param := ⟨"uint256", false, w, none⟩

/-- Modelled from the spec: the payload of a dynamic byte-sequence parameter —
a 32-byte length word followed by the data padded to a word boundary. -/
def bytesPayload (data : List Nat) : List Nat :=
  beBytes 32 data.length ++ data ++ List.replicate ((32 - data.length % 32) % 32) 0

/-- Modelled from the spec: the parameter pushed by the macro-generated
`Builder::add_bytes` — canonical name "bytes", dynamic. -/
def bytesParam (data : List Nat) : Param := ⟨"bytes", true, bytesPayload data, none⟩

/-- Modelled from the spec: the array parameter pushed by the macro-generated
`Builder::add_*_array` methods — the elements are wrapped with their scalar
type tag and grouped under a single dimension-1 array parameter whose
canonical name is the element name followed by "[]"; arrays are dynamic and
their payload is a 32-byte count word followed by the element encodings. -/
def arrayParam (elemName : String) (elems : List Param) : Param :=
  ⟨elemName ++ "[]", true,
    beBytes 32 elems.length ++ (elems.map Param.encoded_bytes).flatten,
    some 1⟩

/-- Translation of the macro-generated `Builder::add_u8` (representative of
the scalar methods generated by `impl_solidity_function_for_builder`). -/
def Builder.add_u8 (b : Builder) (v : Nat) : Builder := b.add (u8Param v)

/-- Translation of the macro-generated `Builder::add_u8_array` (representative
of the array methods generated by `impl_solidity_function_for_builder`). -/
def Builder.add_u8_array (b : Builder) (vs : List Nat) : Builder :=
  b.add (arrayParam "uint8" (vs.map u8Param))

/-- Translation of the macro-generated `Builder::add_u256`. -/
def Builder.add_u256 (b : Builder) (w : List Nat) : Builder := b.add (u256Param w)

/-- Translation of the macro-generated `Builder::add_bytes`. -/
def Builder.add_bytes (b : Builder) (data : List Nat) : Builder :=
  b.add (bytesParam data)

/-- The canonical signature string built inside `Builder::signature`:
the name, then the parameters' canonical type names joined by commas,
wrapped in parentheses. -/
def sigString (name : String) (ps : List Param) : String :=
  name ++ "(" ++ String.intercalate "," (ps.map Param.type_name) ++ ")"

/-- Translation of `Builder::signature`.  With no name set the source runs
`panic!`, modelled as `none`.  With a name set the source hashes the UTF-8
bytes of the signature string and then copies the whole digest into the
4-byte array `sig` with `sig.copy_from_slice(&hasher.result())`, which
panics (`none`) unless the digest is exactly 4 bytes long — for the real
32-byte Keccak-256 digest this always panics. -/
def signature (H : List Nat → List Nat) (b : Builder) : Option (List Nat) :=
  match b.name with
  | none => none
  | some name =>
      let digest := H (strBytes (sigString name b.params))
      if digest.length = 4 then some digest else none

/-- Translation of the `total_len` fold in `Builder::build`: a dynamic
parameter contributes 32 plus its required byte length, a static one its
required byte length. -/
def total_len (ps : List Param) : Nat :=
  ps.foldl
    (fun sum p =>
      if p.is_dynamic then 32 + sum + p.required_byte_len
      else sum + p.required_byte_len)
    0

/-- Translation of the layout loop in `Builder::build`.  `idx` is the
enumeration index, `off` the tail write cursor.  For a dynamic parameter the
low 8 bytes of its head slot receive the big-endian tail offset (the
`offset as u64` cast truncates modulo 2 ^ 64) and the payload is copied to
the tail; for a static parameter its bytes are copied into the head slot.
Each Rust subslice bound check and `copy_from_slice` length check appears as
an `if`, with `none` at each panic point. -/
def writeParams (no : Nat) : List Param → Nat → Nat → List Nat → Option (List Nat)
  | [], _, _, buf => some buf
  | p :: rest, idx, off, buf =>
      if p.is_dynamic then
        if (idx + 1) * 32 + no ≤ buf.length then
          let buf1 := writeAt buf (idx * 32 + 24 + no) (beBytes 8 (off % 2 ^ 64))
          if off + p.encoded_bytes.length ≤ buf1.length then
            writeParams no rest (idx + 1) (off + p.encoded_bytes.length)
              (writeAt buf1 off p.encoded_bytes)
          else none
        else none
      else
        if (idx + 1) * 32 + no ≤ buf.length then
          if p.encoded_bytes.length = 32 then
            writeParams no rest (idx + 1) off (writeAt buf (idx * 32 + no) p.encoded_bytes)
          else none
        else none

/-- Translation of `Builder::build`.  The name offset is 4 when a name is
set; the signature (a panic point) is computed first; a zero buffer of
`total_len + name_offset` bytes is allocated; the layout loop runs; finally,
when a name was set, `buf.copy_from_slice(&sig)` copies the selector over
the whole buffer, panicking (`none`) unless the buffer length equals the
selector length. -/
def build (H : List Nat → List Nat) (b : Builder) : Option (List Nat) :=
  match b.name with
  | none =>
      writeParams 0 b.params 0 (b.params.length * 32)
        (List.replicate (total_len b.params) 0)
  | some _ =>
      match signature H b with
      | none => none
      | some sig =>
          match writeParams 4 b.params 0 (b.params.length * 32 + 4)
              (List.replicate (total_len b.params + 4) 0) with
          | none => none
          | some buf => if buf.length = sig.length then some sig else none

/-- The name offset of a builder: 4 when a name is set, 0 otherwise. -/
def nameOffset (b : Builder) : Nat :=
  match b.name with
  | none => 0
  | some _ => 4

/-- Spec formula for the buffer length: sum over parameters of 32 plus the
payload length for a dynamic parameter, and the static width for a static
one. -/
def sumContrib (ps : List Param) : Nat :=
  (ps.map (fun p =>
    if p.is_dynamic then 32 + p.encoded_bytes.length else p.encoded_bytes.length)).sum

/-- Sum of the payload lengths of the dynamic parameters among the first `j`
parameters. -/
def dynBefore (ps : List Param) (j : Nat) : Nat :=
  ((ps.take j).map (fun p => if p.is_dynamic then p.encoded_bytes.length else 0)).sum

/-- Total tail length: payload lengths of all dynamic parameters. -/
def tailSum (ps : List Param) : Nat :=
  (ps.map (fun p => if p.is_dynamic then p.encoded_bytes.length else 0)).sum

/-- The tail offset the layout loop stores in the head slot of the dynamic
parameter at index `j`. -/
def expOffset (b : Builder) (j : Nat) : Nat :=
  b.params.length * 32 + nameOffset b + dynBefore b.params j

/-- A 32-byte-digest hash function standing in for Keccak-256 when a concrete
instance is needed. -/
def hash32 : List Nat → List Nat := fun _ => List.replicate 32 0

example : strBytes "ab(" = [97, 98, 40] := by decide

example : build hash32 ⟨none, []⟩ = some [] := by decide

example : build hash32 ⟨none, [u256Param (List.replicate 32 7)]⟩ =
    some (List.replicate 32 7) := by decide

/-! ### Basic lemmas about the byte-level helpers -/

lemma beBytes_length (w n : Nat) : (beBytes w n).length = w := by
  simp [beBytes]

lemma beBytes_getElem? (w n i : Nat) :
    (beBytes w n)[i]? = if i < w then some (n / 256 ^ (w - 1 - i) % 256) else none := by
  by_cases h : i < w
  · simp [beBytes, List.getElem?_range, h]
  · simp [beBytes, List.getElem?_range, h]
    omega

lemma writeAt_length (buf bytes : List Nat) (pos : Nat)
    (h : pos + bytes.length ≤ buf.length) :
    (writeAt buf pos bytes).length = buf.length := by
  unfold writeAt
  simp only [List.length_append, List.length_take, List.length_drop]
  omega

lemma writeAt_getElem? (buf bytes : List Nat) (pos i : Nat)
    (h : pos + bytes.length ≤ buf.length) :
    (writeAt buf pos bytes)[i]? =
      if pos ≤ i ∧ i < pos + bytes.length then bytes[i - pos]? else buf[i]? := by
  have htl : (buf.take pos).length = pos := by
    simp only [List.length_take]
    omega
  unfold writeAt
  rw [List.getElem?_append, htl]
  by_cases h1 : i < pos
  · rw [if_pos h1, if_neg (by omega), List.getElem?_take_of_lt h1]
  · rw [if_neg h1, List.getElem?_append]
    by_cases h2 : i - pos < bytes.length
    · rw [if_pos h2, if_pos (by omega)]
    · rw [if_neg h2, if_neg (by omega), List.getElem?_drop]
      congr 1
      omega

lemma subslice_getElem? (buf : List Nat) (pos len i : Nat) :
    (subslice buf pos len)[i]? = if i < len then buf[pos + i]? else none := by
  unfold subslice
  by_cases h : i < len
  · rw [if_pos h, List.getElem?_take_of_lt h, List.getElem?_drop]
  · rw [if_neg h]
    apply List.getElem?_eq_none
    simp only [List.length_take, List.length_drop]
    omega

lemma subslice_eq_of (buf bytes : List Nat) (pos len : Nat)
    (hlen : bytes.length = len)
    (h : ∀ i, i < len → buf[pos + i]? = bytes[i]?) :
    subslice buf pos len = bytes := by
  apply List.ext_getElem?
  intro i
  rw [subslice_getElem?]
  by_cases hi : i < len
  · rw [if_pos hi, h i hi]
  · rw [if_neg hi]
    exact (List.getElem?_eq_none (by omega)).symm

lemma lt_length_of_getElem?_eq_some (l : List Nat) (i x : Nat) (h : l[i]? = some x) :
    i < l.length :=
  (List.getElem?_eq_some.mp h).1

/-! ### Arithmetic facts about the big-endian encodings -/

lemma beBytes32_high (e i : Nat) (he : e < 2 ^ 64) (hi : i < 24) :
    (beBytes 32 e)[i]? = some 0 := by
  rw [beBytes_getElem?, if_pos (by omega)]
  have h2 : (2 : Nat) ^ 64 ≤ 256 ^ (32 - 1 - i) := by
    calc (2 : Nat) ^ 64 = 256 ^ 8 := by norm_num
    _ ≤ 256 ^ (32 - 1 - i) := Nat.pow_le_pow_right (by norm_num) (by omega)
  rw [Nat.div_eq_of_lt (lt_of_lt_of_le he h2)]

lemma beBytes32_low (e i : Nat) (h24 : 24 ≤ i) (h32 : i < 32) :
    (beBytes 32 e)[i]? = (beBytes 8 e)[i - 24]? := by
  rw [beBytes_getElem?, beBytes_getElem?, if_pos h32, if_pos (by omega)]
  have h : 32 - 1 - i = 8 - 1 - (i - 24) := by omega
  rw [h]

lemma beBytes32_split (e : Nat) (he : e < 2 ^ 64) :
    beBytes 32 e = List.replicate 24 0 ++ beBytes 8 e := by
  apply List.ext_getElem?
  intro i
  rw [List.getElem?_append, List.length_replicate]
  by_cases h1 : i < 24
  · rw [if_pos h1, beBytes32_high e i he h1, List.getElem?_replicate, if_pos h1]
  · rw [if_neg h1]
    by_cases h2 : i < 32
    · rw [beBytes32_low e i (by omega) h2]
    · rw [beBytes_getElem?, if_neg h2]
      exact (List.getElem?_eq_none (by rw [beBytes_length]; omega)).symm

/-! ### Sum formulas for the layout arithmetic -/

lemma dynBefore_zero (ps : List Param) : dynBefore ps 0 = 0 := by
  simp [dynBefore]

lemma dynBefore_succ_cons (p : Param) (rest : List Param) (j : Nat) :
    dynBefore (p :: rest) (j + 1) =
      (if p.is_dynamic then p.encoded_bytes.length else 0) + dynBefore rest j := by
  simp [dynBefore, List.take_succ_cons]

lemma tailSum_cons (p : Param) (ps : List Param) :
    tailSum (p :: ps) = (if p.is_dynamic then p.encoded_bytes.length else 0) + tailSum ps := by
  simp [tailSum]

lemma sumContrib_cons (p : Param) (ps : List Param) :
    sumContrib (p :: ps) =
      (if p.is_dynamic then 32 + p.encoded_bytes.length else p.encoded_bytes.length) +
        sumContrib ps := by
  simp [sumContrib]

lemma total_len_go (ps : List Param) : ∀ n : Nat,
    ps.foldl
      (fun sum p =>
        if p.is_dynamic then 32 + sum + p.required_byte_len
        else sum + p.required_byte_len) n
      = n + sumContrib ps := by
  induction ps with
  | nil => intro n; simp [sumContrib]
  | cons p rest ih =>
      intro n
      rw [List.foldl_cons, ih, sumContrib_cons]
      by_cases h : p.is_dynamic <;> simp [h, Param.required_byte_len] <;> omega

lemma total_len_eq (ps : List Param) : total_len ps = sumContrib ps := by
  unfold total_len
  rw [total_len_go]
  omega

lemma signature_length (H : List Nat → List Nat) (b : Builder) (s : List Nat)
    (h : signature H b = some s) : s.length = 4 := by
  unfold signature at h
  cases hb : b.name with
  | none => rw [hb] at h; exact absurd h (by simp)
  | some n =>
      rw [hb] at h
      simp only at h
      by_cases hl : (H (strBytes (sigString n b.params))).length = 4
      · rw [if_pos hl] at h
        cases h
        exact hl
      · rw [if_neg hl] at h
        exact absurd h (by simp)

lemma signature_none_of_digest32 (H : List Nat → List Nat)
    (hH : ∀ x, (H x).length = 32) (b : Builder) (n : String) (hn : b.name = some n) :
    signature H b = none := by
  unfold signature
  rw [hn]
  simp only
  rw [if_neg (by rw [hH]; omega)]

/-! ### Invariants of the layout loop -/

lemma writeParams_length (no : Nat) : ∀ (ps : List Param) (idx off : Nat)
    (buf res : List Nat), writeParams no ps idx off buf = some res →
    res.length = buf.length := by
  intro ps
  induction ps with
  | nil =>
      intro idx off buf res h
      simp only [writeParams, Option.some.injEq] at h
      rw [← h]
  | cons p rest ih =>
      intro idx off buf res h
      simp only [writeParams] at h
      by_cases hd : p.is_dynamic
      · rw [if_pos hd] at h
        by_cases h1 : (idx + 1) * 32 + no ≤ buf.length
        · rw [if_pos h1] at h
          have hb8 : (idx * 32 + 24 + no) + (beBytes 8 (off % 2 ^ 64)).length ≤ buf.length := by
            rw [beBytes_length]; omega
          have e1 : (writeAt buf (idx * 32 + 24 + no) (beBytes 8 (off % 2 ^ 64))).length
              = buf.length := writeAt_length _ _ _ hb8
          by_cases h2 : off + p.encoded_bytes.length ≤
              (writeAt buf (idx * 32 + 24 + no) (beBytes 8 (off % 2 ^ 64))).length
          · rw [if_pos h2] at h
            have e2 : (writeAt (writeAt buf (idx * 32 + 24 + no) (beBytes 8 (off % 2 ^ 64)))
                off p.encoded_bytes).length
                = (writeAt buf (idx * 32 + 24 + no) (beBytes 8 (off % 2 ^ 64))).length :=
              writeAt_length _ _ _ h2
            have := ih (idx + 1) (off + p.encoded_bytes.length) _ res h
            omega
          · rw [if_neg h2] at h
            exact absurd h (by simp)
        · rw [if_neg h1] at h
          exact absurd h (by simp)
      · rw [if_neg hd] at h
        by_cases h1 : (idx + 1) * 32 + no ≤ buf.length
        · rw [if_pos h1] at h
          by_cases h2 : p.encoded_bytes.length = 32
          · rw [if_pos h2] at h
            have e1 : (writeAt buf (idx * 32 + no) p.encoded_bytes).length = buf.length :=
              writeAt_length _ _ _ (by omega)
            have := ih (idx + 1) off _ res h
            omega
          · rw [if_neg h2] at h
            exact absurd h (by simp)
        · rw [if_neg h1] at h
          exact absurd h (by simp)

lemma writeParams_frame (no : Nat) : ∀ (ps : List Param) (idx off : Nat)
    (buf res : List Nat), writeParams no ps idx off buf = some res →
    (idx + ps.length) * 32 + no ≤ off →
    ∀ pos : Nat,
      (pos < idx * 32 + no ∨ ((idx + ps.length) * 32 + no ≤ pos ∧ pos < off)) →
      res[pos]? = buf[pos]? := by
  intro ps
  induction ps with
  | nil =>
      intro idx off buf res h _ pos _
      simp only [writeParams, Option.some.injEq] at h
      rw [← h]
  | cons p rest ih =>
      intro idx off buf res h hoff pos hpos
      rw [List.length_cons] at hoff hpos
      simp only [writeParams] at h
      by_cases hd : p.is_dynamic
      · rw [if_pos hd] at h
        by_cases h1 : (idx + 1) * 32 + no ≤ buf.length
        · rw [if_pos h1] at h
          have hb8 : (idx * 32 + 24 + no) + (beBytes 8 (off % 2 ^ 64)).length ≤ buf.length := by
            rw [beBytes_length]; omega
          have e1 : (writeAt buf (idx * 32 + 24 + no) (beBytes 8 (off % 2 ^ 64))).length
              = buf.length := writeAt_length _ _ _ hb8
          by_cases h2 : off + p.encoded_bytes.length ≤
              (writeAt buf (idx * 32 + 24 + no) (beBytes 8 (off % 2 ^ 64))).length
          · rw [if_pos h2] at h
            have hrec := ih (idx + 1) (off + p.encoded_bytes.length) _ res h
              (by omega) pos
              (by rcases hpos with hl | ⟨ha, hb⟩
                  · left; omega
                  · right; omega)
            rw [hrec, writeAt_getElem? _ _ _ _ h2,
              if_neg (by rcases hpos with hl | ⟨ha, hb⟩ <;> omega),
              writeAt_getElem? _ _ _ _ hb8, beBytes_length,
              if_neg (by rcases hpos with hl | ⟨ha, hb⟩ <;> omega)]
          · rw [if_neg h2] at h
            exact absurd h (by simp)
        · rw [if_neg h1] at h
          exact absurd h (by simp)
      · rw [if_neg hd] at h
        by_cases h1 : (idx + 1) * 32 + no ≤ buf.length
        · rw [if_pos h1] at h
          by_cases h2 : p.encoded_bytes.length = 32
          · rw [if_pos h2] at h
            have hw : (idx * 32 + no) + p.encoded_bytes.length ≤ buf.length := by omega
            have hrec := ih (idx + 1) off _ res h (by omega) pos
              (by rcases hpos with hl | ⟨ha, hb⟩
                  · left; omega
                  · right; omega)
            rw [hrec, writeAt_getElem? _ _ _ _ hw,
              if_neg (by rcases hpos with hl | ⟨ha, hb⟩ <;> omega)]
          · rw [if_neg h2] at h
            exact absurd h (by simp)
        · rw [if_neg h1] at h
          exact absurd h (by simp)

lemma writeParams_head_bound (no : Nat) : ∀ (ps : List Param) (idx off : Nat)
    (buf res : List Nat), writeParams no ps idx off buf = some res →
    ∀ j, j < ps.length → (idx + j + 1) * 32 + no ≤ buf.length := by
  intro ps
  induction ps with
  | nil =>
      intro idx off buf res _ j hj
      exact absurd hj (by simp)
  | cons p rest ih =>
      intro idx off buf res h j hj
      simp only [writeParams] at h
      by_cases hd : p.is_dynamic
      · rw [if_pos hd] at h
        by_cases h1 : (idx + 1) * 32 + no ≤ buf.length
        · rw [if_pos h1] at h
          have hb8 : (idx * 32 + 24 + no) + (beBytes 8 (off % 2 ^ 64)).length ≤ buf.length := by
            rw [beBytes_length]; omega
          have e1 : (writeAt buf (idx * 32 + 24 + no) (beBytes 8 (off % 2 ^ 64))).length
              = buf.length := writeAt_length _ _ _ hb8
          by_cases h2 : off + p.encoded_bytes.length ≤
              (writeAt buf (idx * 32 + 24 + no) (beBytes 8 (off % 2 ^ 64))).length
          · rw [if_pos h2] at h
            match j with
            | 0 => omega
            | j + 1 =>
                have e2 : (writeAt (writeAt buf (idx * 32 + 24 + no)
                    (beBytes 8 (off % 2 ^ 64))) off p.encoded_bytes).length
                    = buf.length := by rw [writeAt_length _ _ _ h2, e1]
                have := ih (idx + 1) (off + p.encoded_bytes.length) _ res h j
                  (by simpa using Nat.lt_of_succ_lt_succ hj)
                omega
          · rw [if_neg h2] at h
            exact absurd h (by simp)
        · rw [if_neg h1] at h
          exact absurd h (by simp)
      · rw [if_neg hd] at h
        by_cases h1 : (idx + 1) * 32 + no ≤ buf.length
        · rw [if_pos h1] at h
          by_cases h2 : p.encoded_bytes.length = 32
          · rw [if_pos h2] at h
            match j with
            | 0 => omega
            | j + 1 =>
                have e1 : (writeAt buf (idx * 32 + no) p.encoded_bytes).length = buf.length :=
                  writeAt_length _ _ _ (by omega)
                have := ih (idx + 1) off _ res h j (by simpa using Nat.lt_of_succ_lt_succ hj)
                omega
          · rw [if_neg h2] at h
            exact absurd h (by simp)
        · rw [if_neg h1] at h
          exact absurd h (by simp)

lemma writeParams_spec (no : Nat) : ∀ (ps : List Param) (idx off : Nat)
    (buf res : List Nat), writeParams no ps idx off buf = some res →
    (idx + ps.length) * 32 + no ≤ off →
    ∀ j, ∀ hj : j < ps.length, ps[j].is_dynamic = true →
      (∀ i, i < 24 →
        res[(idx + j) * 32 + no + i]? = buf[(idx + j) * 32 + no + i]?) ∧
      (∀ i, i < 8 →
        res[(idx + j) * 32 + 24 + no + i]? =
          (beBytes 8 ((off + dynBefore ps j) % 2 ^ 64))[i]?) ∧
      (∀ i, i < ps[j].encoded_bytes.length →
        res[off + dynBefore ps j + i]? = ps[j].encoded_bytes[i]?) := by
  intro ps
  induction ps with
  | nil =>
      intro idx off buf res _ _ j hj
      exact absurd hj (by simp)
  | cons p rest ih =>
      intro idx off buf res h hoff j hj hdyn
      rw [List.length_cons] at hoff hj
      simp only [writeParams] at h
      by_cases hd : p.is_dynamic
      · rw [if_pos hd] at h
        by_cases h1 : (idx + 1) * 32 + no ≤ buf.length
        · rw [if_pos h1] at h
          have hb8 : (idx * 32 + 24 + no) + (beBytes 8 (off % 2 ^ 64)).length ≤ buf.length := by
            rw [beBytes_length]; omega
          have e1 : (writeAt buf (idx * 32 + 24 + no) (beBytes 8 (off % 2 ^ 64))).length
              = buf.length := writeAt_length _ _ _ hb8
          by_cases h2 : off + p.encoded_bytes.length ≤
              (writeAt buf (idx * 32 + 24 + no) (beBytes 8 (off % 2 ^ 64))).length
          · rw [if_pos h2] at h
            have hoff2 : (idx + 1 + rest.length) * 32 + no ≤ off + p.encoded_bytes.length := by
              omega
            have hframe := writeParams_frame no rest (idx + 1)
              (off + p.encoded_bytes.length) _ res h hoff2
            cases j with
            | zero =>
                simp only [Nat.add_zero, List.getElem_cons_zero, dynBefore_zero]
                refine ⟨?_, ?_, ?_⟩
                · intro i hi
                  rw [hframe (idx * 32 + no + i) (Or.inl (by omega)),
                    writeAt_getElem? _ _ _ _ h2, if_neg (by omega),
                    writeAt_getElem? _ _ _ _ hb8, if_neg (by rw [beBytes_length]; omega)]
                · intro i hi
                  rw [hframe (idx * 32 + 24 + no + i) (Or.inl (by omega)),
                    writeAt_getElem? _ _ _ _ h2, if_neg (by omega),
                    writeAt_getElem? _ _ _ _ hb8,
                    if_pos (by rw [beBytes_length]; omega),
                    Nat.add_sub_cancel_left]
                · intro i hi
                  rw [hframe (off + i) (Or.inr (by omega)),
                    writeAt_getElem? _ _ _ _ h2, if_pos (by omega),
                    Nat.add_sub_cancel_left]
            | succ j =>
                have hj2 : j < rest.length := by omega
                simp only [List.getElem_cons_succ] at hdyn ⊢
                have hrec := ih (idx + 1) (off + p.encoded_bytes.length) _ res h
                  hoff2 j hj2 hdyn
                rw [dynBefore_succ_cons, if_pos hd,
                  (show idx + (j + 1) = idx + 1 + j by omega),
                  (show off + (p.encoded_bytes.length + dynBefore rest j)
                    = off + p.encoded_bytes.length + dynBefore rest j by omega)]
                refine ⟨?_, hrec.2.1, hrec.2.2⟩
                intro i hi
                rw [hrec.1 i hi,
                  writeAt_getElem? _ _ _ _ h2, if_neg (by omega),
                  writeAt_getElem? _ _ _ _ hb8, if_neg (by rw [beBytes_length]; omega)]
          · rw [if_neg h2] at h
            exact absurd h (by simp)
        · rw [if_neg h1] at h
          exact absurd h (by simp)
      · rw [if_neg hd] at h
        by_cases h1 : (idx + 1) * 32 + no ≤ buf.length
        · rw [if_pos h1] at h
          by_cases h2 : p.encoded_bytes.length = 32
          · rw [if_pos h2] at h
            cases j with
            | zero =>
                simp only [List.getElem_cons_zero] at hdyn
                exact absurd hdyn (by simpa using hd)
            | succ j =>
                have hj2 : j < rest.length := by omega
                simp only [List.getElem_cons_succ] at hdyn ⊢
                have hw : (idx * 32 + no) + p.encoded_bytes.length ≤ buf.length := by omega
                have hrec := ih (idx + 1) off _ res h (by omega) j hj2 hdyn
                rw [dynBefore_succ_cons, if_neg hd,
                  (show idx + (j + 1) = idx + 1 + j by omega),
                  (show (0 : Nat) + dynBefore rest j = dynBefore rest j by omega)]
                refine ⟨?_, hrec.2.1, hrec.2.2⟩
                intro i hi
                rw [hrec.1 i hi, writeAt_getElem? _ _ _ _ hw, if_neg (by omega)]
          · rw [if_neg h2] at h
            exact absurd h (by simp)
        · rw [if_neg h1] at h
          exact absurd h (by simp)

lemma statics32_of_writeParams_isSome (no : Nat) : ∀ (ps : List Param) (idx off : Nat)
    (buf : List Nat), (writeParams no ps idx off buf).isSome →
    ∀ p, p ∈ ps → p.is_dynamic = false → p.encoded_bytes.length = 32 := by
  intro ps
  induction ps with
  | nil =>
      intro idx off buf _ p hp
      exact absurd hp (by simp)
  | cons q rest ih =>
      intro idx off buf h p hp hstat
      simp only [writeParams] at h
      by_cases hd : q.is_dynamic
      · rw [if_pos hd] at h
        by_cases h1 : (idx + 1) * 32 + no ≤ buf.length
        · rw [if_pos h1] at h
          by_cases h2 : off + q.encoded_bytes.length ≤
              (writeAt buf (idx * 32 + 24 + no) (beBytes 8 (off % 2 ^ 64))).length
          · rw [if_pos h2] at h
            rcases List.mem_cons.mp hp with hpq | hpr
            · rw [hpq] at hstat
              rw [hstat] at hd
              simp at hd
            · exact ih (idx + 1) (off + q.encoded_bytes.length) _ h p hpr hstat
          · rw [if_neg h2] at h
            exact absurd h (by simp)
        · rw [if_neg h1] at h
          exact absurd h (by simp)
      · rw [if_neg hd] at h
        by_cases h1 : (idx + 1) * 32 + no ≤ buf.length
        · rw [if_pos h1] at h
          by_cases h2 : q.encoded_bytes.length = 32
          · rw [if_pos h2] at h
            rcases List.mem_cons.mp hp with hpq | hpr
            · rw [hpq]
              exact h2
            · exact ih (idx + 1) off _ h p hpr hstat
          · rw [if_neg h2] at h
            exact absurd h (by simp)
        · rw [if_neg h1] at h
          exact absurd h (by simp)

lemma writeParams_isSome (no : Nat) : ∀ (ps : List Param) (idx off : Nat)
    (buf : List Nat),
    (idx + ps.length) * 32 + no ≤ buf.length →
    off + tailSum ps ≤ buf.length →
    (∀ p, p ∈ ps → p.is_dynamic = false → p.encoded_bytes.length = 32) →
    (writeParams no ps idx off buf).isSome := by
  intro ps
  induction ps with
  | nil =>
      intro idx off buf _ _ _
      simp [writeParams]
  | cons p rest ih =>
      intro idx off buf hhead htail hstat
      rw [List.length_cons] at hhead
      rw [tailSum_cons] at htail
      simp only [writeParams]
      by_cases hd : p.is_dynamic
      · rw [if_pos hd] at htail
        rw [if_pos hd, if_pos (show (idx + 1) * 32 + no ≤ buf.length by omega)]
        have hb8 : (idx * 32 + 24 + no) + (beBytes 8 (off % 2 ^ 64)).length ≤ buf.length := by
          rw [beBytes_length]; omega
        have e1 : (writeAt buf (idx * 32 + 24 + no) (beBytes 8 (off % 2 ^ 64))).length
            = buf.length := writeAt_length _ _ _ hb8
        rw [if_pos (show off + p.encoded_bytes.length ≤
            (writeAt buf (idx * 32 + 24 + no) (beBytes 8 (off % 2 ^ 64))).length by omega)]
        have e2 : (writeAt (writeAt buf (idx * 32 + 24 + no) (beBytes 8 (off % 2 ^ 64)))
            off p.encoded_bytes).length = buf.length := by
          rw [writeAt_length _ _ _ (by omega), e1]
        exact ih (idx + 1) (off + p.encoded_bytes.length) _ (by omega) (by omega)
          (fun q hq => hstat q (List.mem_cons_of_mem p hq))
      · rw [if_neg hd] at htail
        rw [if_neg hd, if_pos (show (idx + 1) * 32 + no ≤ buf.length by omega)]
        have h32 : p.encoded_bytes.length = 32 :=
          hstat p (List.mem_cons_self p rest) (by simpa using hd)
        rw [if_pos h32]
        have e1 : (writeAt buf (idx * 32 + no) p.encoded_bytes).length = buf.length :=
          writeAt_length _ _ _ (by omega)
        exact ih (idx + 1) off _ (by omega) (by omega)
          (fun q hq => hstat q (List.mem_cons_of_mem p hq))

lemma sumContrib_of_statics32 (ps : List Param)
    (h : ∀ p, p ∈ ps → p.is_dynamic = false → p.encoded_bytes.length = 32) :
    sumContrib ps = ps.length * 32 + tailSum ps := by
  induction ps with
  | nil => simp [sumContrib, tailSum]
  | cons p rest ih =>
      rw [sumContrib_cons, tailSum_cons, List.length_cons,
        ih (fun q hq => h q (List.mem_cons_of_mem p hq))]
      by_cases hd : p.is_dynamic
      · rw [if_pos hd, if_pos hd]
        omega
      · rw [if_neg hd, if_neg hd,
          h p (List.mem_cons_self p rest) (by simpa using hd)]
        omega

/-! ### Facts about `build` -/

lemma build_none_def (H : List Nat → List Nat) (ps : List Param) :
    build H ⟨none, ps⟩ =
      writeParams 0 ps 0 (ps.length * 32) (List.replicate (total_len ps) 0) := rfl

lemma nameOffset_none (ps : List Param) : nameOffset ⟨none, ps⟩ = 0 := rfl

lemma nameOffset_some (n : String) (ps : List Param) : nameOffset ⟨some n, ps⟩ = 4 := rfl

lemma build_some_empty (H : List Nat → List Nat) (n : String) (ps : List Param)
    (buf : List Nat) (h : build H ⟨some n, ps⟩ = some buf) :
    ps = [] ∧ signature H ⟨some n, ps⟩ = some buf := by
  simp only [build] at h
  cases hs : signature H ⟨some n, ps⟩ with
  | none => rw [hs] at h; exact absurd h (by simp)
  | some sig =>
      rw [hs] at h
      cases hw : writeParams 4 ps 0 (ps.length * 32 + 4)
          (List.replicate (total_len ps + 4) 0) with
      | none => rw [hw] at h; exact absurd h (by simp)
      | some bw =>
          rw [hw] at h
          dsimp only at h
          have hs4 : sig.length = 4 := signature_length H _ sig hs
          by_cases hlen : bw.length = sig.length
          · rw [if_pos hlen] at h
            have hbuf : sig = buf := by
              simpa using h
            cases ps with
            | nil => exact ⟨rfl, congrArg some hbuf⟩
            | cons p rest =>
                have hb := writeParams_head_bound 4 (p :: rest) 0 _ _ bw hw 0 (by simp)
                have hl := writeParams_length 4 (p :: rest) 0 _ _ bw hw
                rw [List.length_replicate] at hl hb
                omega
          · rw [if_neg hlen] at h
            exact absurd h (by simp)

lemma build_length (H : List Nat → List Nat) (b : Builder) (buf : List Nat)
    (h : build H b = some buf) : buf.length = nameOffset b + sumContrib b.params := by
  obtain ⟨nm, ps⟩ := b
  cases nm with
  | none =>
      rw [build_none_def] at h
      have hl := writeParams_length 0 ps 0 _ _ buf h
      rw [List.length_replicate, total_len_eq] at hl
      rw [nameOffset_none]
      show buf.length = 0 + sumContrib ps
      omega
  | some n =>
      obtain ⟨hps, hs⟩ := build_some_empty H n ps buf h
      subst hps
      have h4 : buf.length = 4 := signature_length H _ buf hs
      rw [nameOffset_some]
      simp [sumContrib, h4]

lemma build_named_none (H : List Nat → List Nat) (hH : ∀ x, (H x).length = 32)
    (n : String) (ps : List Param) : build H ⟨some n, ps⟩ = none := by
  have hs := signature_none_of_digest32 H hH ⟨some n, ps⟩ n rfl
  simp only [build]
  rw [hs]

/-! ### The claims -/

/-- C1: the claim states that `build()` never fails on a valid parameter set,
in particular when a name is set and the parameter list is non-empty.  The
code contradicts this: whenever a name is set, `signature()` panics copying
the 32-byte Keccak-256 digest into the 4-byte `sig` array, so `build` (which
calls it) aborts — and even past that, the final
`buf.copy_from_slice(&sig)` would panic for any non-empty parameter list.
This theorem exhibits the failure: for every hash with 32-byte digests,
every named builder makes `build` abort (modelled as `none`). -/
theorem c1_build_fails_on_named (H : List Nat → List Nat)
    (hH : ∀ x, (H x).length = 32) (n : String) (ps : List Param) :
    build H ⟨some n, ps⟩ = none :=
  build_named_none H hH n ps

/-- C1 witness: the failure at the concrete input of the claim — a named
builder with one static 32-byte parameter. -/
theorem c1_witness :
    build hash32 ⟨some "f", [u256Param (List.replicate 32 7)]⟩ = none :=
  c1_build_fails_on_named hash32 (fun _ => rfl) "f" [u256Param (List.replicate 32 7)]

/-- C3: whenever `build()` returns a buffer, its length is the name offset
(4 with a name, 0 without) plus, over all parameters, 32 plus the payload
length for each dynamic parameter and the static width for each static
parameter. -/
theorem c3_buffer_length (H : List Nat → List Nat) (b : Builder) (buf : List Nat)
    (h : build H b = some buf) :
    buf.length = nameOffset b +
      ((b.params.map (fun p =>
        if p.is_dynamic then 32 + p.encoded_bytes.length
        else p.encoded_bytes.length)).sum) := by
  have hb := build_length H b buf h
  rw [hb]
  rfl

/-- C3 witness: a nameless builder with one static 32-byte parameter yields a
32-byte buffer, matching the formula. -/
theorem c3_witness :
    (List.replicate 32 7 : List Nat).length =
      nameOffset ⟨none, [u256Param (List.replicate 32 7)]⟩ +
      (([u256Param (List.replicate 32 7)].map (fun p =>
        if p.is_dynamic then 32 + p.encoded_bytes.length
        else p.encoded_bytes.length)).sum) :=
  c3_buffer_length hash32 ⟨none, [u256Param (List.replicate 32 7)]⟩
    (List.replicate 32 7) (by decide)

/-- C4: the claim states that `signature()` returns the first 4 bytes of the
Keccak-256 hash of the canonical signature string.  The code builds the right
string — for a builder named "transfer" with an address and a uint256
parameter the hashed string is exactly "transfer(address,uint256)" — but then
panics copying the whole 32-byte digest into the 4-byte `sig` array, so no
selector is ever returned (modelled as `none` for every 32-byte-digest
hash). -/
theorem c4_signature_selector (H : List Nat → List Nat)
    (hH : ∀ x, (H x).length = 32) (a : Address) (w : List Nat) (b : Builder)
    (h : Builder.add_address (Builder.setName Builder.new "transfer")
        (Except.ok a : Except Unit Address) = Except.ok b) :
    sigString "transfer" (b.add_u256 w).params = "transfer(address,uint256)" ∧
    signature H (b.add_u256 w) = none := by
  simp only [Builder.add_address, Builder.new, Builder.setName] at h
  have hb : b = ⟨some "transfer", [addressParam a]⟩ := by
    injection h with h2
    rw [← h2]
    rfl
  subst hb
  constructor
  · simp only [Builder.add_u256, Builder.add, u256Param, addressParam, sigString,
      List.map_append, List.map_cons, List.map_nil]
    decide
  · exact signature_none_of_digest32 H hH _ "transfer" rfl

/-- C4 witness: the same at a concrete address and 32-byte word. -/
theorem c4_witness :
    sigString "transfer"
      ((Builder.mk (some "transfer") [addressParam ⟨List.replicate 20 0⟩]).add_u256
        (List.replicate 32 0)).params = "transfer(address,uint256)" ∧
    signature hash32
      ((Builder.mk (some "transfer") [addressParam ⟨List.replicate 20 0⟩]).add_u256
        (List.replicate 32 0)) = none :=
  c4_signature_selector hash32 (fun _ => rfl) ⟨List.replicate 20 0⟩
    (List.replicate 32 0) (Builder.mk (some "transfer") [addressParam ⟨List.replicate 20 0⟩])
    rfl

/-- C5: the claim states that `signature()` fails fatally without a name and
never fails with one.  The first half holds (the `panic!` branch, modelled
`none`); the second is contradicted by the code: with a name set the
`sig.copy_from_slice(&hasher.result())` length mismatch (4 versus 32) makes
it fail as well, for every 32-byte-digest hash. -/
theorem c5_signature_requires_name (H : List Nat → List Nat)
    (hH : ∀ x, (H x).length = 32) (b : Builder) :
    (b.name = none → signature H b = none) ∧
    (∀ n, b.name = some n → signature H b = none) := by
  constructor
  · intro hn
    unfold signature
    rw [hn]
  · intro n hn
    exact signature_none_of_digest32 H hH b n hn

/-- C5 witness: both halves at concrete builders. -/
theorem c5_witness :
    signature hash32 ⟨none, []⟩ = none ∧ signature hash32 ⟨some "f", []⟩ = none :=
  ⟨(c5_signature_requires_name hash32 (fun _ => rfl) ⟨none, []⟩).1 rfl,
    (c5_signature_requires_name hash32 (fun _ => rfl) ⟨some "f", []⟩).2 "f" rfl⟩

/-- C6: a failed address or function-reference conversion propagates the
typed error and pushes nothing — the builder value is untouched, so its
parameter count is unchanged. -/
theorem c6_conversion_error {E : Type} (b : Builder) (e : E) :
    b.add_address (Except.error e : Except E Address) = Except.error e ∧
    b.add_function (Except.error e : Except E SolFunction) = Except.error e :=
  ⟨rfl, rfl⟩

/-- C7: the claim states that an empty parameter list yields the empty buffer
without a name, and a 4-byte selector buffer with one.  The first half holds;
the second is contradicted by the code: `signature()` panics on its 32-into-4
`copy_from_slice` before the buffer is even allocated, for every
32-byte-digest hash. -/
theorem c7_empty_builds (H : List Nat → List Nat) (hH : ∀ x, (H x).length = 32) :
    build H ⟨none, ([] : List Param)⟩ = some [] ∧
    build H ⟨some "transfer", ([] : List Param)⟩ = none :=
  ⟨rfl, build_named_none H hH "transfer" []⟩

/-- C7 witness: the same with a concrete 32-byte-digest hash. -/
theorem c7_witness :
    build hash32 ⟨none, ([] : List Param)⟩ = some [] ∧
    build hash32 ⟨some "transfer", ([] : List Param)⟩ = none :=
  c7_empty_builds hash32 (fun _ => rfl)

/-- C8: the outcome of `signature()` is a pure function of the name and the
ordered list of canonical type names: two builders agreeing on those (whatever
the parameter values) get the same result, and repeated calls trivially
agree. -/
theorem c8_selector_pure (H : List Nat → List Nat) (b1 b2 : Builder)
    (hn : b1.name = b2.name)
    (ht : b1.params.map Param.type_name = b2.params.map Param.type_name) :
    signature H b1 = signature H b2 := by
  have hsig : ∀ n : String, sigString n b1.params = sigString n b2.params := by
    intro n
    unfold sigString
    rw [ht]
  unfold signature
  rw [hn]
  cases hb : b2.name with
  | none => rfl
  | some n =>
      dsimp only
      rw [hsig n]

/-- C8 witness: two builders with equal type names but different parameter
values produce the same signature outcome. -/
theorem c8_witness :
    signature hash32 ⟨some "f", [u256Param (List.replicate 32 1)]⟩ =
      signature hash32 ⟨some "f", [u256Param (List.replicate 32 2)]⟩ :=
  c8_selector_pure hash32 ⟨some "f", [u256Param (List.replicate 32 1)]⟩
    ⟨some "f", [u256Param (List.replicate 32 2)]⟩ rfl rfl

/-- C9: every successful addition — the generic `add`, the macro-generated
scalar and array methods, and the address/function-reference additions on
conversion success — appends exactly one parameter at the end, preserving the
earlier parameters and the name; an array addition with no elements still
appends one dimension-1 array parameter. -/
theorem c9_append_one (b : Builder) (p : Param) (v : Nat) (vs : List Nat)
    {E : Type} (a : Address) (f : SolFunction) :
    ((b.add p).params = b.params ++ [p] ∧ (b.add p).name = b.name) ∧
    ((b.add_u8 v).params = b.params ++ [u8Param v] ∧ (b.add_u8 v).name = b.name) ∧
    ((b.add_u8_array vs).params = b.params ++ [arrayParam "uint8" (vs.map u8Param)] ∧
      (b.add_u8_array vs).name = b.name) ∧
    ((b.add_u8_array []).params = b.params ++ [arrayParam "uint8" []] ∧
      (arrayParam "uint8" []).dims = some 1) ∧
    (b.add_address (Except.ok a : Except E Address)
        = Except.ok (b.add (addressParam a)) ∧
      b.add_function (Except.ok f : Except E SolFunction)
        = Except.ok (b.add (functionParam f))) :=
  ⟨⟨rfl, rfl⟩, ⟨rfl, rfl⟩, ⟨rfl, rfl⟩, ⟨rfl, rfl⟩, rfl, rfl⟩

/-- C10: the head-slot copy for a static parameter requires its encoding to be
exactly 32 bytes.  Forward: any completed `build` had only 32-byte static
parameters.  Backward: on a nameless builder, if every static parameter
encodes to exactly 32 bytes then `build` completes (dynamic payloads may have
any length). -/
theorem c10_static_word (H : List Nat → List Nat) (b : Builder) (ps : List Param) :
    ((build H b).isSome →
      ∀ p, p ∈ b.params → p.is_dynamic = false → p.encoded_bytes.length = 32) ∧
    ((∀ p, p ∈ ps → p.is_dynamic = false → p.encoded_bytes.length = 32) →
      (build H ⟨none, ps⟩).isSome) := by
  constructor
  · intro h p hp hstat
    obtain ⟨nm, qs⟩ := b
    cases nm with
    | none =>
        rw [build_none_def] at h
        exact statics32_of_writeParams_isSome 0 qs 0 _ _ h p hp hstat
    | some n =>
        obtain ⟨buf, hbuf⟩ := Option.isSome_iff_exists.mp h
        obtain ⟨hqs, -⟩ := build_some_empty H n qs buf hbuf
        subst hqs
        exact absurd hp (by simp)
  · intro hstat
    rw [build_none_def]
    have hlen : (List.replicate (total_len ps) 0).length = ps.length * 32 + tailSum ps := by
      rw [List.length_replicate, total_len_eq, sumContrib_of_statics32 ps hstat]
    exact writeParams_isSome 0 ps 0 (ps.length * 32) _ (by omega) (by omega) hstat

/-- C10 witness: a 64-byte static parameter (a multiple of 32 but not 32)
makes `build` fail, and a 32-byte one succeeds. -/
theorem c10_witness :
    (build hash32 ⟨none, [u256Param (List.replicate 32 7)]⟩).isSome ∧
    build hash32 ⟨none, [⟨"uint256", false, List.replicate 64 7, none⟩]⟩ = none := by
  constructor
  · exact (c10_static_word hash32 Builder.new [u256Param (List.replicate 32 7)]).2
      (by decide)
  · decide

set_option maxRecDepth 100000 in
/-- C2 counterexample: for a nameless builder with two dynamic parameters of
32-byte payloads, the claim's offset formula for the second parameter gives
`params.len()*32 + name_offset + (prior payload length + 32 per prior
dynamic parameter)` = 64 + 0 + (32 + 32) = 128, but the code stores 96 in
its head slot: the tail cursor only advances by the payload length, never by
an extra 32. -/
theorem c2_counterexample :
    (build hash32 ⟨none, [⟨"bytes", true, List.replicate 32 1, none⟩,
        ⟨"bytes", true, List.replicate 32 1, none⟩]⟩).map
        (fun buf => subslice buf 32 32)
      = some (beBytes 32 96) ∧
    beBytes 32 96 ≠ beBytes 32 (2 * 32 + 0 + (32 + 32)) := by
  constructor
  · decide
  · decide

/-- C2 (amended): for every buffer `build()` returns and every dynamic
parameter at index `j`, the 32-byte head slot at `j*32 + name_offset` holds
the big-endian offset `params.len()*32 + name_offset + (sum of prior dynamic
payload lengths)` — with no extra 32 per prior dynamic parameter — and the
buffer bytes at that offset equal the parameter's encoded bytes (stated for
offsets below 2^64, the range of the `offset as u64` cast). -/
theorem c2_dynamic_offsets (H : List Nat → List Nat) (b : Builder) (buf : List Nat)
    (h : build H b = some buf) (j : Nat) (hj : j < b.params.length)
    (hdyn : b.params[j].is_dynamic = true)
    (hfit : expOffset b j < 2 ^ 64) :
    subslice buf (j * 32 + nameOffset b) 32 = beBytes 32 (expOffset b j) ∧
    subslice buf (expOffset b j) (b.params[j].encoded_bytes.length)
      = b.params[j].encoded_bytes := by
  obtain ⟨nm, ps⟩ := b
  cases nm with
  | some n =>
      obtain ⟨hps, -⟩ := build_some_empty H n ps buf h
      subst hps
      exact absurd hj (by simp)
  | none =>
      rw [build_none_def] at h
      obtain ⟨f24, f8, ftail⟩ :=
        writeParams_spec 0 ps 0 (ps.length * 32) _ buf h (by omega) j hj hdyn
      simp only [Nat.zero_add, Nat.add_zero] at f24 f8 ftail
      have hexp : expOffset ⟨none, ps⟩ j = ps.length * 32 + dynBefore ps j := by
        unfold expOffset
        rw [nameOffset_none]
        show ps.length * 32 + 0 + dynBefore ps j = ps.length * 32 + dynBefore ps j
        omega
      rw [hexp] at hfit ⊢
      rw [nameOffset_none]
      have hmod : (ps.length * 32 + dynBefore ps j) % 2 ^ 64
          = ps.length * 32 + dynBefore ps j := Nat.mod_eq_of_lt hfit
      rw [hmod] at f8
      have hv := f8 0 (by omega)
      rw [beBytes_getElem?, if_pos (by omega)] at hv
      have hrange := lt_length_of_getElem?_eq_some _ _ _ hv
      have hlenbuf : buf.length = total_len ps := by
        have hl := writeParams_length 0 ps 0 _ _ buf h
        rw [List.length_replicate] at hl
        exact hl
      constructor
      · rw [Nat.add_zero, beBytes32_split _ hfit]
        apply subslice_eq_of
        · simp [beBytes_length]
        · intro i hi
          rw [List.getElem?_append, List.length_replicate]
          by_cases h24 : i < 24
          · rw [if_pos h24, f24 i h24, List.getElem?_replicate, if_pos (by omega),
              List.getElem?_replicate, if_pos h24]
          · rw [if_neg h24, (show j * 32 + i = j * 32 + 24 + (i - 24) by omega),
              f8 (i - 24) (by omega)]
      · apply subslice_eq_of _ _ _ _ rfl
        intro i hi
        exact ftail i hi

set_option maxRecDepth 100000 in
/-- C2 witness: the amended statement at a concrete input — a nameless
builder with one dynamic 3-byte parameter: the head slot holds the 32-byte
big-endian offset 32 and the 3 payload bytes sit at offset 32. -/
theorem c2_witness :
    subslice (List.replicate 24 0 ++ [0, 0, 0, 0, 0, 0, 0, 32, 7, 7, 7]) 0 32
      = beBytes 32 32 ∧
    subslice (List.replicate 24 0 ++ [0, 0, 0, 0, 0, 0, 0, 32, 7, 7, 7]) 32 3
      = [7, 7, 7] :=
  c2_dynamic_offsets hash32 ⟨none, [⟨"bytes", true, [7, 7, 7], none⟩]⟩
    (List.replicate 24 0 ++ [0, 0, 0, 0, 0, 0, 0, 32, 7, 7, 7])
    (by decide) 0 (by decide) (by decide) (by decide)
